import Mathlib

/-!
# Verification of the targzsize streaming pipeline

Shallow embedding of `main.go` of the targzsize repository: a three-stage
pipeline that decompresses a gzip stream, parses tar entries, and folds
entry sizes into a running total while emitting progress lines.

The embedding has three layers:

* a functional layer (`ProcessFile`, `AddItems`, `WriteLines`, `mainFile`,
  `mainFiles`, `main`) giving the value-level semantics of each function of
  `main.go`;
* a heap layer modelling the fragment of Go's `math/big` that the program
  exercises (`natMake`, `addVVLoop`, `natAdd`, ...), word slices and all,
  used to analyse the shallow copy `Total: *dest` in `AddItems`;
* a small-step trace layer (`PipeState`, `Step`, `Reaches`) modelling the
  three goroutines, the buffered channels `items`, `lines` and the
  single-slot error channel, and the driver `mainFile` blocking on the two
  completion contexts before receiving the extractor's result.

External collaborators (`os.Open`, `compress/gzip`, `archive/tar`,
`go-humanize`) are modelled at their interfaces, as documented on each
definition.
-/

/-- The tar type flag of an entry header (`header.Typeflag` in Go).
`archive/tar` normalises legacy regular-file flags to `TypeReg` before a
header is returned by `Reader.Next`, so a regular file always reaches the
`switch` in `ProcessFile` as `reg`. -/
inductive TypeFlag
  | reg
  | dir
  | symlink
  | hardlink
  | charDevice
  | blockDevice
  | fifo
  | other
deriving DecidableEq, Repr

/-- One tar header as produced by `tar.Reader.Next`: the fields of
`tar.Header` that `ProcessFile` reads (`Name`, `Size`, `Typeflag`).
`Size` is a Go `int64`, modelled as `Int`. -/
structure TarHeader where
  name : String
  size : Int
  typeflag : TypeFlag
deriving DecidableEq, Repr

/-- `Item` from main.go: one item inside a tar.gz file
(`type Item struct { Path string; Size int64 }`). -/
structure Item where
  Path : String
  Size : Int
deriving DecidableEq, Repr

/-- `StatusLine` from main.go, at the value level: `Path` and the numeric
value of the `Total` field at the moment the aggregator builds the record
(`StatusLine{Path: item.Path, Total: *dest}`). The heap layer below models
the `big.Int` representation of that same field. -/
structure StatusLine where
  Path : String
  Total : Int
deriving DecidableEq, Repr

/-- The terminal errors `ProcessFile` can send on its result channel, one
constructor per `errChan <- ...` site in main.go. -/
inductive TError
  | openError
  | gzipHeaderError
  | readerError
  | scanError
deriving DecidableEq, BEq, Repr

/-- Abstract model of the byte stream behind one path argument, as the
pipeline observes it through `os.Open`, `gzip.NewReader` and `tar.Reader`:
either the open fails, or the gzip header is invalid, or the stream yields
a sequence of parsed tar headers, optionally cut short by a mid-stream
parse failure (`parseFail = true`) instead of the natural `io.EOF`. -/
inductive FileModel
  | openFail
  | gzipFail
  | tarEntries (headers : List TarHeader) (parseFail : Bool)
deriving DecidableEq, Repr

/-- Model of `tar.NewReader` from Go's `archive/tar`:
`func NewReader(r io.Reader) *Reader { return &Reader{curr: &regFileReader{r, 0}} }`
unconditionally returns a freshly allocated non-nil reader, so the model is
constantly `some ()`. main.go nevertheless checks the result against `nil`;
the `none` branch is kept in `ProcessFile` to mirror that check. -/
def tarNewReader : Option Unit := some ()

/-- The `switch header.Typeflag` body of `ProcessFile`:
`case tar.TypeReg` emits `Item{Size: header.Size, Path: header.Name}`,
the `default` branch emits `Item{Size: 0, Path: header.Name}`. -/
def itemOfHeader (h : TarHeader) : Item :=
  match h.typeflag with
  | TypeFlag.reg => { Path := h.name, Size := h.size }
  | _ => { Path := h.name, Size := 0 }

/-- `ProcessFile` from main.go, value level. Returns the sequence of items
sent on the `items` channel (in send order) and the sequence of errors sent
on `errChan` (the goroutine returns right after each error send, so the
list has at most one element). Both channels are closed on every exit
path (`defer close(errChan)`, `defer close(items)`). -/
def ProcessFile (f : FileModel) : List Item × List TError :=
  match f with
  | FileModel.openFail => ([], [TError.openError])
  | FileModel.gzipFail => ([], [TError.gzipHeaderError])
  | FileModel.tarEntries headers parseFail =>
    match tarNewReader with
    | none => ([], [TError.readerError])
    | some _ =>
      (headers.map itemOfHeader, if parseFail then [TError.scanError] else [])

/-- `AddItems` from main.go, value level: folds every item of the `items`
channel into `dest` (`dest.Add(dest, big.NewInt(item.Size))`), and unless
`silent` is set emits one `StatusLine` per item carrying the total right
after that add. Returns the final total and the emitted lines in order. -/
def AddItems (dest : Int) (items : List Item) (silent : Bool) :
    Int × List StatusLine :=
  match items with
  | [] => (dest, [])
  | item :: rest =>
    let dest1 := dest + item.Size
    let r := AddItems dest1 rest silent
    if silent then r else (r.1, { Path := item.Path, Total := dest1 } :: r.2)

/-- `totalToString` from main.go: plain decimal via `value.String()` when
`human` is false, otherwise `humanize.BigBytes(value)`. The humanize
library is external to the repository; its rendering is taken as the
parameter `humanFmt`. -/
def totalToString (value : Int) (human : Bool) (humanFmt : Int → String) :
    String :=
  if !human then toString value else humanFmt value

/-- The `fmt.Fprintf(os.Stderr, "\033[2K\r%s %q", ...)` body of
`WriteLines`, for paths without characters that `%q` would escape. -/
def renderLine (l : StatusLine) (human : Bool) (humanFmt : Int → String) :
    String :=
  "\x1b[2K\r" ++ totalToString l.Total human humanFmt
    ++ " \"" ++ l.Path ++ "\""

/-- `WriteLines` from main.go, value level: renders every received
`StatusLine` to stderr, in channel order. -/
def WriteLines (lines : List StatusLine) (human : Bool)
    (humanFmt : Int → String) : List String :=
  lines.map (fun l => renderLine l human humanFmt)

/-- `mainFile` from main.go, value level: wires `ProcessFile`, `AddItems`
and `WriteLines` for one path, waits for both downstream contexts, then
receives from `resultChan`. Returns the total after the call (the Go code
mutates `*total`), the rendered progress lines, and the received error
(`nil` from the closed empty channel is `none`). The trace layer below
justifies reading the received error as `(ProcessFile f).2.head?` and the
final total as the full fold. -/
def mainFile (f : FileModel) (total : Int) (silent human : Bool)
    (humanFmt : Int → String) : Int × List String × Option TError :=
  let pr := ProcessFile f
  let ar := AddItems total pr.1 silent
  let out := WriteLines ar.2 human humanFmt
  (ar.1, out, pr.2.head?)

/-- The `for _, filepath := range files` loop of `main`: processes files in
argument order against the shared total, and stops at the first file whose
`mainFile` returns a non-nil error (`log.Fatalf` terminates the process). -/
def mainFiles (files : List FileModel) (total : Int) (silent human : Bool)
    (humanFmt : Int → String) : Int × Option TError :=
  match files with
  | [] => (total, none)
  | f :: rest =>
    let r := mainFile f total silent human humanFmt
    match r.2.2 with
    | some e => (r.1, some e)
    | none => mainFiles rest r.1 silent human humanFmt

/-- Observable outcome of `main`: `log.Fatal` on an empty file list,
`log.Fatalf` on the first failing file, or the final formatted total. -/
inductive MainResult
  | fatalNoFiles
  | fatalError (e : TError)
  | success (printed : String)
deriving DecidableEq, Repr

/-- `main` from main.go: requires at least one file, runs `mainFile` per
path sequentially against `var total big.Int` (zero-initialised), halts at
the first error, and on success prints `totalToString(&total, humanFlag)`.
(Named `mainProgram` because Lean reserves `main` for executables.) -/
def mainProgram (files : List FileModel) (silent human : Bool)
    (humanFmt : Int → String) : MainResult :=
  if files.isEmpty then MainResult.fatalNoFiles
  else
    let r := mainFiles files 0 silent human humanFmt
    match r.2 with
    | some e => MainResult.fatalError e
    | none => MainResult.success (totalToString r.1 human humanFmt)

/-- Sum of the `Size` fields of a list of items. -/
def sumSizes (items : List Item) : Int :=
  items.foldr (fun i acc => i.Size + acc) 0

theorem sumSizes_nil : sumSizes [] = 0 := rfl

theorem sumSizes_cons (i : Item) (l : List Item) :
    sumSizes (i :: l) = i.Size + sumSizes l := rfl

theorem sumSizes_append (l₁ l₂ : List Item) :
    sumSizes (l₁ ++ l₂) = sumSizes l₁ + sumSizes l₂ := by
  induction l₁ with
  | nil => simp [sumSizes]
  | cons i t ih =>
    simp only [List.cons_append, sumSizes_cons, ih]
    ring

/-- The final total computed by `AddItems` is the input plus the sum of all
folded sizes, independently of the suppression flag. -/
theorem addItems_fst (items : List Item) (dest : Int) (silent : Bool) :
    (AddItems dest items silent).1 = dest + sumSizes items := by
  induction items generalizing dest with
  | nil => simp [AddItems, sumSizes_nil]
  | cons i rest ih =>
    cases silent with
    | true => simp [AddItems, sumSizes_cons, ih]; ring
    | false => simp [AddItems, sumSizes_cons, ih]; ring

/-- When `silent` is set, `AddItems` emits no status lines at all
(the loop body hits `continue` before the send). -/
theorem addItems_silent_no_lines (items : List Item) (dest : Int) :
    (AddItems dest items true).2 = [] := by
  induction items generalizing dest with
  | nil => rfl
  | cons i rest ih => simp [AddItems, ih]

/-- The suppression flag never changes the final total. -/
theorem addItems_fst_silent_irrel (items : List Item) (dest : Int)
    (s₁ s₂ : Bool) :
    (AddItems dest items s₁).1 = (AddItems dest items s₂).1 := by
  rw [addItems_fst, addItems_fst]

/-- C1. For every archive processed without a terminal error, the delta
contributed to the running total equals exactly the sum of all `Item.Size`
values emitted by `ProcessFile`, at arbitrary precision (`Int`, no
overflow at any magnitude); when a terminal error is produced, the items
emitted before the failure are the whole of `(ProcessFile f).1` and the
same equation shows their partial sum is still reflected in the total. -/
theorem addItems_total_delta (f : FileModel) (total : Int) (silent : Bool) :
    (AddItems total (ProcessFile f).1 silent).1
      = total + sumSizes (ProcessFile f).1 :=
  addItems_fst (ProcessFile f).1 total silent

/-- C2. `ProcessFile` emits exactly one `Item` per tar header, in archive
order (the emitted list is the header list mapped through
`itemOfHeader`), and `itemOfHeader` keeps the declared size exactly when
the type flag is `reg` and forces size 0 for every other type flag,
whatever size the header carries. -/
theorem processFile_entry_mapping (headers : List TarHeader)
    (parseFail : Bool) :
    (ProcessFile (FileModel.tarEntries headers parseFail)).1
        = headers.map itemOfHeader ∧
    ∀ h : TarHeader,
      (itemOfHeader h).Path = h.name ∧
      (itemOfHeader h).Size
        = (if h.typeflag = TypeFlag.reg then h.size else 0) := by
  constructor
  · rfl
  · intro h
    cases hf : h.typeflag <;> simp [itemOfHeader, hf]

/-- C4. On a corrupted gzip header, `ProcessFile` emits no items and
reports the gzip format error, so the archive contributes nothing to the
running total: `mainFile` returns the total unchanged together with that
error, and no status lines are produced. -/
theorem gzip_error_zero_contribution (total : Int) (silent human : Bool)
    (humanFmt : Int → String) :
    ProcessFile FileModel.gzipFail = ([], [TError.gzipHeaderError]) ∧
    mainFile FileModel.gzipFail total silent human humanFmt
      = (total, [], some TError.gzipHeaderError) := by
  constructor
  · rfl
  · cases silent <;> rfl

/-- C6. Suppression affects only observability: for every archive and
every entry sequence the final total is the same with suppression on or
off, zero status lines are emitted when suppressed, and the total returned
by `mainFile` is likewise independent of the flag. -/
theorem suppression_total_invariant (total : Int) (items : List Item)
    (f : FileModel) (t : Int) (human : Bool) (humanFmt : Int → String) :
    (AddItems total items true).1 = (AddItems total items false).1 ∧
    (AddItems total items true).2 = [] ∧
    (mainFile f t true human humanFmt).1
      = (mainFile f t false human humanFmt).1 := by
  refine ⟨addItems_fst_silent_irrel items total true false,
    addItems_silent_no_lines items total, ?_⟩
  simp only [mainFile]
  exact addItems_fst_silent_irrel _ _ _ _

/-- C9. The defensive `tgz == nil` check in `ProcessFile` can never fire:
`tar.NewReader` always returns a non-nil reader once the gzip reader was
created, so the distinct reader-creation failure is never sent on the
result channel, whatever the input file is. -/
theorem reader_error_unreachable (f : FileModel) :
    ((ProcessFile f).2).count TError.readerError = 0 := by
  cases f with
  | openFail => rfl
  | gzipFail => rfl
  | tarEntries headers parseFail => cases parseFail <;> rfl

/-- When every file in the list processes without error, the loop of
`main` visits all of them in order and accumulates every archive's sum
into the shared total. -/
theorem mainFiles_all_success (fs : List FileModel) (t : Int)
    (sil hum : Bool) (hf : Int → String)
    (h : ∀ g ∈ fs, (ProcessFile g).2 = []) :
    mainFiles fs t sil hum hf
      = (t + (fs.map (fun g => sumSizes (ProcessFile g).1)).sum, none) := by
  induction fs generalizing t with
  | nil => simp [mainFiles]
  | cons g rest ih =>
    have hg : (ProcessFile g).2 = [] := h g (List.mem_cons_self g rest)
    have hrest : ∀ g' ∈ rest, (ProcessFile g').2 = [] :=
      fun g' hm => h g' (List.mem_cons_of_mem g hm)
    simp only [mainFiles, mainFile, hg, List.head?, addItems_fst,
      ih _ hrest, List.map_cons, List.sum_cons, Prod.mk.injEq, and_true]
    ring

/-- Once the loop of `main` meets a failing file, the files after it do
not influence the outcome: the run with any tail after the failing file
equals the run that ends at the failing file. -/
theorem mainFiles_halt_aux (fs₁ : List FileModel) (fbad : FileModel)
    (fs₂ : List FileModel) (t : Int) (sil hum : Bool) (hf : Int → String)
    (h1 : ∀ g ∈ fs₁, (ProcessFile g).2 = [])
    (h2 : (ProcessFile fbad).2 ≠ []) :
    mainFiles (fs₁ ++ fbad :: fs₂) t sil hum hf
      = mainFiles (fs₁ ++ [fbad]) t sil hum hf := by
  induction fs₁ generalizing t with
  | nil =>
    cases herr : (ProcessFile fbad).2 with
    | nil => exact absurd herr h2
    | cons e tl => simp [mainFiles, mainFile, herr]
  | cons g rest ih =>
    have hg : (ProcessFile g).2 = [] := h1 g (List.mem_cons_self g rest)
    have hrest : ∀ g' ∈ rest, (ProcessFile g').2 = [] :=
      fun g' hm => h1 g' (List.mem_cons_of_mem g hm)
    simp only [List.cons_append, mainFiles, mainFile, hg, List.head?]
    exact ih _ hrest

/-- The two demo archives of the multi-file scenario: a single regular
entry of 100 bytes and a single regular entry of 200 bytes. -/
def demoArchiveA : FileModel :=
  FileModel.tarEntries [{ name := "x", size := 100, typeflag := TypeFlag.reg }] false

/-- Second demo archive, contributing 200 bytes. -/
def demoArchiveB : FileModel :=
  FileModel.tarEntries [{ name := "y", size := 200, typeflag := TypeFlag.reg }] false

/-- Concrete stand-in for the humanize formatter in closed scenarios. -/
def demoFmt : Int → String := fun _ => ""

/-- C8. `main` processes the paths strictly sequentially in argument order
against a shared total initialised to zero: with all-success prefixes the
total accumulates archive by archive, the run halts at the first failing
file with the files after it never attempted, and the scenario of two
archives contributing 100 and 200 prints the accumulated total `"300"`. -/
theorem main_sequential_halt_scenario (fs₁ fs₂ : List FileModel)
    (fbad : FileModel) (t : Int) (sil hum : Bool) (hf : Int → String)
    (h1 : ∀ g ∈ fs₁, (ProcessFile g).2 = [])
    (h2 : (ProcessFile fbad).2 ≠ []) :
    mainFiles (fs₁ ++ fbad :: fs₂) t sil hum hf
        = mainFiles (fs₁ ++ [fbad]) t sil hum hf ∧
    mainFiles fs₁ t sil hum hf
        = (t + (fs₁.map (fun g => sumSizes (ProcessFile g).1)).sum, none) ∧
    mainProgram [demoArchiveA, demoArchiveB] false false demoFmt
        = MainResult.success "300" := by
  refine ⟨mainFiles_halt_aux fs₁ fbad fs₂ t sil hum hf h1 h2,
    mainFiles_all_success fs₁ t sil hum hf h1, ?_⟩
  rfl

/-- Witness for C8 at a concrete input: one succeeding archive before a
file whose open fails, with one archive after it. -/
theorem main_sequential_halt_scenario_witness :
    mainFiles ([demoArchiveA] ++ FileModel.openFail :: [demoArchiveB])
        0 false false demoFmt
      = mainFiles ([demoArchiveA] ++ [FileModel.openFail]) 0 false false demoFmt ∧
    mainFiles [demoArchiveA] 0 false false demoFmt
      = (0 + ([demoArchiveA].map (fun g => sumSizes (ProcessFile g).1)).sum, none) ∧
    mainProgram [demoArchiveA, demoArchiveB] false false demoFmt
      = MainResult.success "300" :=
  main_sequential_halt_scenario [demoArchiveA] [demoArchiveB]
    FileModel.openFail 0 false false demoFmt (by decide) (by decide)

/-- Folding items with nonnegative sizes from a nonnegative starting total
keeps the total nonnegative after every single fold (the emitted status
lines carry exactly the totals after each fold). -/
theorem addItems_nonneg (items : List Item) (dest : Int)
    (hd : 0 ≤ dest) (hi : ∀ i ∈ items, 0 ≤ i.Size) :
    0 ≤ (AddItems dest items false).1 ∧
      ∀ l ∈ (AddItems dest items false).2, 0 ≤ l.Total := by
  induction items generalizing dest with
  | nil => exact ⟨hd, by intro l hl; simp [AddItems] at hl⟩
  | cons i rest ih =>
    have hi0 : 0 ≤ i.Size := hi i (List.mem_cons_self i rest)
    have hd1 : 0 ≤ dest + i.Size := by linarith
    have hrest : ∀ j ∈ rest, 0 ≤ j.Size :=
      fun j hm => hi j (List.mem_cons_of_mem i hm)
    obtain ⟨h1, h2⟩ := ih (dest + i.Size) hd1 hrest
    refine ⟨by simpa [AddItems] using h1, ?_⟩
    intro l hl
    simp only [AddItems, Bool.false_eq_true, if_false, List.mem_cons] at hl
    rcases hl with hl | hl
    · simpa [hl] using hd1
    · exact h2 l hl

/-- C10. The running total behaves as an arbitrary-precision unsigned
integer: every entry emitted by `ProcessFile` carries a nonnegative size
(regular entries by the `archive/tar` guarantee that `Reader.Next` rejects
a negative size for a regular file, all other entries because the
aggregator receives the literal 0), so folding from zero keeps the total
nonnegative after every fold, at any magnitude. -/
theorem running_total_unsigned (headers : List TarHeader) (parseFail : Bool)
    (hv : ∀ h ∈ headers, h.typeflag = TypeFlag.reg → 0 ≤ h.size) :
    0 ≤ (AddItems 0 (ProcessFile (FileModel.tarEntries headers parseFail)).1 false).1 ∧
    ∀ l ∈ (AddItems 0 (ProcessFile (FileModel.tarEntries headers parseFail)).1 false).2,
      0 ≤ l.Total := by
  have hitems : ∀ i ∈ (ProcessFile (FileModel.tarEntries headers parseFail)).1,
      0 ≤ i.Size := by
    intro i him
    simp only [ProcessFile, tarNewReader, List.mem_map] at him
    obtain ⟨h, hmem, rfl⟩ := him
    cases hf : h.typeflag with
    | reg => simpa [itemOfHeader, hf] using hv h hmem hf
    | dir => simp [itemOfHeader, hf]
    | symlink => simp [itemOfHeader, hf]
    | hardlink => simp [itemOfHeader, hf]
    | charDevice => simp [itemOfHeader, hf]
    | blockDevice => simp [itemOfHeader, hf]
    | fifo => simp [itemOfHeader, hf]
    | other => simp [itemOfHeader, hf]
  exact addItems_nonneg _ 0 le_rfl hitems

/-- Demo header list for the C10 witness: a regular entry of size 5 and a
directory entry whose header carries a negative size field. -/
def demoHeaders : List TarHeader :=
  [{ name := "a", size := 5, typeflag := TypeFlag.reg },
   { name := "d", size := -3, typeflag := TypeFlag.dir }]

/-- Witness for C10 at a concrete input. -/
theorem running_total_unsigned_witness :
    (∀ h ∈ demoHeaders, h.typeflag = TypeFlag.reg → 0 ≤ h.size) ∧
    (0 ≤ (AddItems 0 (ProcessFile (FileModel.tarEntries demoHeaders false)).1 false).1 ∧
     ∀ l ∈ (AddItems 0 (ProcessFile (FileModel.tarEntries demoHeaders false)).1 false).2,
       0 ≤ l.Total) :=
  ⟨by decide, running_total_unsigned demoHeaders false (by decide)⟩

/-!
## Heap layer: the `math/big` fragment behind `Total: *dest`

`AddItems` stores `Total: *dest` in each `StatusLine`: a Go struct copy of
`big.Int`, whose `abs []Word` slice header is copied but whose backing
word array is shared. The definitions below model heap-allocated word
arrays and the exact `math/big` operations the program executes
(`nat.make`, `nat.norm`, `nat.set`, `addVV`, `addVW`, `nat.add`,
`Int.Add` with `z == x`, `big.NewInt`), so that the fate of a stored
snapshot under later `dest.Add(dest, ...)` calls can be computed. Words
are base `2^64`; arithmetic is `Nat` with explicit `% wordBase` where the
Go code relies on `uint` overflow. All `big.Int` values reaching `Add`
here are nonnegative (C10), so the sign handling of `Int.Add` reduces to
`z.abs = z.abs.add(x.abs, y.abs)` and the `neg` field is omitted.
-/

/-- Word base of `math/big` on a 64-bit platform. -/
def wordBase : Nat := 2 ^ 64

/-- A Go slice header over a heap of word arrays: array id, length,
capacity. Every `nat` slice produced by the modelled operations starts at
offset 0 of its array, so no offset field is needed. -/
structure GoSlice where
  arr : Nat
  len : Nat
  cap : Nat
deriving DecidableEq, Repr

/-- The nil slice (`var total big.Int` starts with `abs == nil`). -/
def nilSlice : GoSlice := { arr := 0, len := 0, cap := 0 }

/-- The word array with id `a` in the heap. -/
def heapArr (h : List (List Nat)) (a : Nat) : List Nat := h.getD a []

/-- The words visible through slice `s`: the first `s.len` cells of its
backing array. -/
def heapRead (h : List (List Nat)) (s : GoSlice) : List Nat :=
  (heapArr h s.arr).take s.len

/-- Write word `w` at index `i` of array `a`. -/
def heapWriteWord (h : List (List Nat)) (a i w : Nat) : List (List Nat) :=
  h.set a ((heapArr h a).set i w)

/-- Allocate a fresh zeroed array of `c` cells; returns its id. -/
def heapAlloc (h : List (List Nat)) (c : Nat) : List (List Nat) × Nat :=
  (h ++ [List.replicate c 0], h.length)

/-- `nat.make` from math/big/nat.go: reuse the backing array when the
capacity suffices; allocate exactly one word for `n == 1`; otherwise
allocate with 4 words of extra capacity. (The `n == 1` fast path is the
current Go source; Go before 1.19 allocated `n+4` there too, which only
makes the array reuse below start one fold earlier.) -/
def natMake (h : List (List Nat)) (z : GoSlice) (n : Nat) :
    List (List Nat) × GoSlice :=
  if n ≤ z.cap then (h, { arr := z.arr, len := n, cap := z.cap })
  else if n = 1 then
    let r := heapAlloc h 1
    (r.1, { arr := r.2, len := 1, cap := 1 })
  else
    let r := heapAlloc h (n + 4)
    (r.1, { arr := r.2, len := n, cap := n + 4 })

/-- `addVV` from math/big/arith.go: word-wise add with carry of `n` words
of `x` and `y` into `z`, reading and writing through the heap so that the
aliasing `z == x` of `dest.Add(dest, y)` behaves as in Go. -/
def addVVLoop (h : List (List Nat)) (zArr zOff xArr xOff yArr yOff n c : Nat) :
    List (List Nat) × Nat :=
  match n with
  | 0 => (h, c)
  | k + 1 =>
    let xi := (heapArr h xArr).getD xOff 0
    let yi := (heapArr h yArr).getD yOff 0
    let sum := xi + yi + c
    let h1 := heapWriteWord h zArr zOff (sum % wordBase)
    addVVLoop h1 zArr (zOff + 1) xArr (xOff + 1) yArr (yOff + 1) k
      (sum / wordBase)

/-- `addVW` from math/big/arith.go: propagate a carry word through `n`
words of `x` into `z` (used on `z[n:m]`, `x[n:]` when `m > n`). -/
def addVWLoop (h : List (List Nat)) (zArr zOff xArr xOff n c : Nat) :
    List (List Nat) × Nat :=
  match n with
  | 0 => (h, c)
  | k + 1 =>
    let xi := (heapArr h xArr).getD xOff 0
    let sum := xi + c
    let h1 := heapWriteWord h zArr zOff (sum % wordBase)
    addVWLoop h1 zArr (zOff + 1) xArr (xOff + 1) k (sum / wordBase)

/-- Go's `copy(z, x)` on word slices: write the listed words sequentially
from index `off` of array `a`. -/
def copyWords (h : List (List Nat)) (a off : Nat) (ws : List Nat) :
    List (List Nat) :=
  match ws with
  | [] => h
  | w :: rest => copyWords (heapWriteWord h a off w) a (off + 1) rest

/-- Length after `nat.norm`: strip high-order zero words. -/
def normLen (ws : List Nat) : Nat :=
  (ws.reverse.dropWhile (fun w => w == 0)).length

/-- `nat.norm` from math/big/nat.go (`return z[:i]`). -/
def natNorm (h : List (List Nat)) (z : GoSlice) : GoSlice :=
  { arr := z.arr, len := normLen (heapRead h z), cap := z.cap }

/-- `nat.set` from math/big/nat.go: `z = z.make(len(x)); copy(z, x)`. -/
def natSet (h : List (List Nat)) (z x : GoSlice) :
    List (List Nat) × GoSlice :=
  let r := natMake h z x.len
  let ws := heapRead r.1 x
  (copyWords r.1 r.2.arr 0 ws, r.2)

/-- `nat.add` after the argument swap, `m = len(x) >= n = len(y)`:
the `m == 0` and `n == 0` special cases, then
`z = z.make(m+1); c := addVV(z[0:n], x, y);
if m > n { c = addVW(z[n:m], x[n:], c) }; z[m] = c; return z.norm()`. -/
def natAddCore (h : List (List Nat)) (z x y : GoSlice) :
    List (List Nat) × GoSlice :=
  let m := x.len
  let n := y.len
  if m = 0 then (h, { arr := z.arr, len := 0, cap := z.cap })
  else if n = 0 then natSet h z x
  else
    let r1 := natMake h z (m + 1)
    let r2 := addVVLoop r1.1 r1.2.arr 0 x.arr 0 y.arr 0 n 0
    let r3 := if n < m then addVWLoop r2.1 r1.2.arr n x.arr n (m - n) r2.2
              else r2
    let h4 := heapWriteWord r3.1 r1.2.arr m r3.2
    (h4, natNorm h4 r1.2)

/-- `nat.add` from math/big/nat.go, including the `m < n` swap. -/
def natAdd (h : List (List Nat)) (z x y : GoSlice) :
    List (List Nat) × GoSlice :=
  if x.len < y.len then natAddCore h z y x else natAddCore h z x y

/-- `big.NewInt(x)` for `0 <= x < 2^64` (item sizes are nonnegative
`int64`): `abs = nat(nil).setWord(Word(x))`, which is the nil slice for 0
and a freshly made one-word slice otherwise. -/
def bigNewInt (h : List (List Nat)) (x : Nat) :
    List (List Nat) × GoSlice :=
  if x = 0 then (h, nilSlice)
  else
    let r := natMake h nilSlice 1
    (heapWriteWord r.1 r.2.arr 0 x, r.2)

/-- `StatusLine` at the representation level: what the struct copy
`StatusLine{Path: item.Path, Total: *dest}` actually stores for the
`Total` field, namely the slice header of `dest.abs` at that moment
(sharing the backing array). -/
structure StatusLineRef where
  Path : String
  Total : GoSlice
deriving DecidableEq, Repr

/-- `AddItems` at the representation level, nonnegative sizes: each
iteration runs `y := big.NewInt(item.Size)` then `dest.Add(dest, y)`
(which for the nonnegative operands here is `dest.abs =
dest.abs.add(dest.abs, y.abs)`), then unless `silent` stores the struct
copy of `*dest`. Returns the final heap, the final `dest` slice header,
and the stored line records in emission order. -/
def AddItemsHeap (h : List (List Nat)) (dest : GoSlice) (items : List Item)
    (silent : Bool) : List (List Nat) × GoSlice × List StatusLineRef :=
  match items with
  | [] => (h, dest, [])
  | item :: rest =>
    let ry := bigNewInt h item.Size.toNat
    let ra := natAdd ry.1 dest dest ry.2
    let line : StatusLineRef := { Path := item.Path, Total := ra.2 }
    let rr := AddItemsHeap ra.1 ra.2 rest silent
    if silent then rr else (rr.1, rr.2.1, line :: rr.2.2)

/-- Numeric value of a little-endian word list. -/
def wordsValue : List Nat → Nat
  | [] => 0
  | w :: ws => w + wordBase * wordsValue ws

/-- Numeric value a `big.Int` slice header denotes in a given heap. -/
def sliceValue (h : List (List Nat)) (s : GoSlice) : Nat :=
  wordsValue (heapRead h s)

/-- Three regular entries of sizes 1, 2 and 4: the smallest archive on
which the shared backing array of `dest` is reused across folds. -/
def aliasItems : List Item :=
  [{ Path := "a", Size := 1 }, { Path := "b", Size := 2 },
   { Path := "c", Size := 4 }]

/-- The representation-level run of `AddItems` on `aliasItems` from a
fresh zero total (heap empty, `dest.abs == nil`), progress not
suppressed. -/
def aliasRun : List (List Nat) × GoSlice × List StatusLineRef :=
  AddItemsHeap [] nilSlice aliasItems false

/-- What each emitted `StatusLine.Total` reads in the final heap, i.e.
after all folds — the value a lagging `WriteLines` consumer (the channel
buffer holds 100 records) observes when it formats the record. -/
def aliasFinalReads : List Nat :=
  aliasRun.2.2.map (fun l => sliceValue aliasRun.1 l.Total)

/-- The snapshot values the records carried at emission time (the
value-level semantics of `AddItems`). -/
def aliasSnapshotTotals : List Int :=
  (AddItems 0 aliasItems false).2.map StatusLine.Total

/-- C3 fails on the code: the `Total` field of an emitted `StatusLine` is
a shallow `big.Int` copy sharing `dest`'s backing word array, and a later
`dest.Add(dest, ...)` that reuses that array (capacity permitting,
`nat.make`) mutates the stored record in place. On sizes `[1, 2, 4]` the
second record is emitted carrying total 3 but reads 7 after the third
fold, while the final total itself (7) agrees with the value-level
semantics. -/
theorem status_line_total_alias_bug :
    aliasSnapshotTotals = [1, 3, 7] ∧
    aliasFinalReads = [1, 7, 7] ∧
    aliasFinalReads.getD 1 0 ≠ (aliasSnapshotTotals.getD 1 0).toNat ∧
    sliceValue aliasRun.1 aliasRun.2.1
      = ((AddItems 0 aliasItems false).1).toNat := by
  refine ⟨by decide, by decide, by decide, by decide⟩

/-!
## Trace layer: goroutines, channels and the driver

Small-step model of one `mainFile` run: the `ProcessFile` goroutine, the
`AddItems` goroutine, the `WriteLines` goroutine, the buffered channels
`items` and `lines` (capacity `chanBufferSize`), the single-slot `errChan`
(capacity 1), and the driver blocked on `<-countCtx.Done()`,
`<-writerCtx.Done()` and finally `<-resultChan`. Each constructor of
`Step` is one channel operation, channel close, context cancellation or
driver resumption of the Go code; any interleaving of the three
goroutines is a sequence of `Step`s.
-/

/-- `chanBufferSize` from main.go. -/
def chanBufferSize : Nat := 100

/-- Program point of the `ProcessFile` goroutine: sending items, then the
error send (if any), then its two deferred closes in LIFO order
(`close(items)` first, then `close(errChan)`). In `emit rest pend`,
`rest` are the items not yet sent and `pend` the error that will be sent
after them (errors are discovered after all preceding items were sent). -/
inductive ExtState
  | emit (rest : List Item) (pend : Option TError)
  | closeItemsPhase
  | closeErrPhase
  | extDone
deriving DecidableEq, Repr

/-- Program point of the `AddItems` goroutine: receiving from `items`,
blocked sending one line, then its deferred `close(lines)` and `cancel()`
in LIFO order. -/
inductive AggState
  | consume
  | send (line : StatusLine)
  | cancelPhase
  | aggDone
deriving DecidableEq, Repr

/-- Program point of the `WriteLines` goroutine. -/
inductive WrState
  | consume
  | wrDone
deriving DecidableEq, Repr

/-- Program point of the driver `mainFile` after launching the stages. -/
inductive DrvState
  | waitCount
  | waitWriter
  | readResult
  | returned (r : Option TError)
deriving DecidableEq, Repr

/-- Global state of one pipeline run: the three goroutine points, the two
bounded channels with their closed flags, the single-slot error channel,
the shared running total `dest` (value level), the completion flags of the
two contexts, the driver point, and the lines already rendered. -/
structure PipeState where
  ext : ExtState
  itemsBuf : List Item
  itemsClosed : Bool
  errBuf : List TError
  errClosed : Bool
  agg : AggState
  dest : Int
  linesBuf : List StatusLine
  linesClosed : Bool
  countDone : Bool
  wr : WrState
  writerDone : Bool
  drv : DrvState
  written : List StatusLine
deriving DecidableEq, Repr

/-- Initial state of the run of `mainFile` on file `f` with the shared
total at `total`: all channels empty and open, every goroutine at its
loop head, the extractor about to send the items `ProcessFile` emits and
then the error it reports (if any). -/
def initState (f : FileModel) (total : Int) : PipeState where
  ext := ExtState.emit (ProcessFile f).1 ((ProcessFile f).2).head?
  itemsBuf := []
  itemsClosed := false
  errBuf := []
  errClosed := false
  agg := AggState.consume
  dest := total
  linesBuf := []
  linesClosed := false
  countDone := false
  wr := WrState.consume
  writerDone := false
  drv := DrvState.waitCount
  written := []

/-- One scheduling step of the pipeline. Sends block on a full buffer
(`hroom`), receives block on an empty buffer, a receive on a closed empty
channel terminates the range loop, and the driver's receives block on the
corresponding completion flag. -/
inductive Step (silent : Bool) : PipeState → PipeState → Prop
  | extEmit (s : PipeState) (i : Item) (rest : List Item) (pend : Option TError)
      (hext : s.ext = ExtState.emit (i :: rest) pend)
      (hroom : s.itemsBuf.length < chanBufferSize) :
      Step silent s { s with ext := ExtState.emit rest pend,
                             itemsBuf := s.itemsBuf ++ [i] }
  | extSendErr (s : PipeState) (e : TError)
      (hext : s.ext = ExtState.emit [] (some e))
      (hroom : s.errBuf.length < 1) :
      Step silent s { s with ext := ExtState.closeItemsPhase,
                             errBuf := s.errBuf ++ [e] }
  | extNoErr (s : PipeState)
      (hext : s.ext = ExtState.emit [] none) :
      Step silent s { s with ext := ExtState.closeItemsPhase }
  | extCloseItems (s : PipeState)
      (hext : s.ext = ExtState.closeItemsPhase) :
      Step silent s { s with ext := ExtState.closeErrPhase,
                             itemsClosed := true }
  | extCloseErr (s : PipeState)
      (hext : s.ext = ExtState.closeErrPhase) :
      Step silent s { s with ext := ExtState.extDone, errClosed := true }
  | aggRecvSilent (s : PipeState) (i : Item) (rest : List Item)
      (hsil : silent = true)
      (hagg : s.agg = AggState.consume)
      (hbuf : s.itemsBuf = i :: rest) :
      Step silent s { s with itemsBuf := rest, dest := s.dest + i.Size }
  | aggRecvEmit (s : PipeState) (i : Item) (rest : List Item)
      (hsil : silent = false)
      (hagg : s.agg = AggState.consume)
      (hbuf : s.itemsBuf = i :: rest) :
      Step silent s { s with itemsBuf := rest, dest := s.dest + i.Size,
                             agg := AggState.send
                               { Path := i.Path, Total := s.dest + i.Size } }
  | aggSend (s : PipeState) (l : StatusLine)
      (hagg : s.agg = AggState.send l)
      (hroom : s.linesBuf.length < chanBufferSize) :
      Step silent s { s with agg := AggState.consume,
                             linesBuf := s.linesBuf ++ [l] }
  | aggCloseLines (s : PipeState)
      (hagg : s.agg = AggState.consume)
      (hbuf : s.itemsBuf = [])
      (hcl : s.itemsClosed = true) :
      Step silent s { s with agg := AggState.cancelPhase,
                             linesClosed := true }
  | aggCancel (s : PipeState)
      (hagg : s.agg = AggState.cancelPhase) :
      Step silent s { s with agg := AggState.aggDone, countDone := true }
  | wrRecv (s : PipeState) (l : StatusLine) (rest : List StatusLine)
      (hwr : s.wr = WrState.consume)
      (hbuf : s.linesBuf = l :: rest) :
      Step silent s { s with linesBuf := rest,
                             written := s.written ++ [l] }
  | wrClose (s : PipeState)
      (hwr : s.wr = WrState.consume)
      (hbuf : s.linesBuf = [])
      (hcl : s.linesClosed = true) :
      Step silent s { s with wr := WrState.wrDone, writerDone := true }
  | drvCount (s : PipeState)
      (hdrv : s.drv = DrvState.waitCount)
      (hc : s.countDone = true) :
      Step silent s { s with drv := DrvState.waitWriter }
  | drvWriter (s : PipeState)
      (hdrv : s.drv = DrvState.waitWriter)
      (hw : s.writerDone = true) :
      Step silent s { s with drv := DrvState.readResult }
  | drvRecvErr (s : PipeState) (e : TError) (rest : List TError)
      (hdrv : s.drv = DrvState.readResult)
      (hbuf : s.errBuf = e :: rest) :
      Step silent s { s with drv := DrvState.returned (some e),
                             errBuf := rest }
  | drvRecvClosed (s : PipeState)
      (hdrv : s.drv = DrvState.readResult)
      (hbuf : s.errBuf = [])
      (hcl : s.errClosed = true) :
      Step silent s { s with drv := DrvState.returned none }

/-- Executions: the reflexive-transitive closure of `Step`. -/
def Reaches (silent : Bool) (s₁ s₂ : PipeState) : Prop :=
  Relation.ReflTransGen (Step silent) s₁ s₂

/-- Items the extractor has not yet sent. -/
def extRest : ExtState → List Item
  | ExtState.emit rest _ => rest
  | _ => []

/-- The error send the extractor still has ahead of it. -/
def extPend : ExtState → List TError
  | ExtState.emit _ (some e) => [e]
  | _ => []

/-- The error the driver has received from `resultChan`, if any. -/
def delivered : DrvState → List TError
  | DrvState.returned (some e) => [e]
  | _ => []

/-- The driver has passed `<-countCtx.Done()`. -/
def drvPastCount : DrvState → Prop
  | DrvState.waitCount => False
  | _ => True

/-- The driver has passed `<-writerCtx.Done()`. -/
def drvPastWriter : DrvState → Prop
  | DrvState.waitCount => False
  | DrvState.waitWriter => False
  | _ => True

theorem extPend_emit (rest : List Item) (pend : Option TError) :
    extPend (ExtState.emit rest pend) = pend.toList := by
  cases pend <;> rfl

/-- `ProcessFile` sends at most one error. -/
theorem processFile_errs_len (f : FileModel) :
    ((ProcessFile f).2).length ≤ 1 := by
  cases f with
  | openFail => simp [ProcessFile]
  | gzipFail => simp [ProcessFile]
  | tarEntries headers parseFail =>
    cases parseFail <;> simp [ProcessFile, tarNewReader]

theorem head_toList_of_len_le_one {α : Type} (l : List α)
    (h : l.length ≤ 1) : l.head?.toList = l := by
  cases l with
  | nil => rfl
  | cons a t =>
    cases t with
    | nil => rfl
    | cons b t2 => simp at h

/-- Inductive invariant of one pipeline run on file `f` from total `t0`:
conservation of the folded sizes across extractor, items buffer and
aggregator; the error ledger (yet-unsent + buffered + delivered errors
are exactly what `ProcessFile` reports); and the happens-before structure
of closes, completion flags and driver progress. -/
structure PipeInv (f : FileModel) (t0 : Int) (s : PipeState) : Prop where
  conserve : t0 + sumSizes (ProcessFile f).1
      = s.dest + sumSizes (extRest s.ext) + sumSizes s.itemsBuf
  ledger : extPend s.ext ++ s.errBuf ++ delivered s.drv = (ProcessFile f).2
  itemsCl : s.itemsClosed = true →
      s.ext = ExtState.closeErrPhase ∨ s.ext = ExtState.extDone
  errCl : s.errClosed = true → s.ext = ExtState.extDone
  countD : s.countDone = true → s.agg = AggState.aggDone
  aggCl : s.agg = AggState.cancelPhase ∨ s.agg = AggState.aggDone →
      s.itemsBuf = [] ∧ s.itemsClosed = true ∧ s.linesClosed = true
  linesCl : s.linesClosed = true →
      s.agg = AggState.cancelPhase ∨ s.agg = AggState.aggDone
  wrD : s.writerDone = true →
      s.wr = WrState.wrDone ∧ s.linesBuf = [] ∧ s.linesClosed = true
  drvC : drvPastCount s.drv → s.countDone = true
  drvW : drvPastWriter s.drv → s.writerDone = true
  retNone : s.drv = DrvState.returned none →
      s.errBuf = [] ∧ s.errClosed = true

theorem pipeInv_init (f : FileModel) (t0 : Int) :
    PipeInv f t0 (initState f t0) := by
  refine ⟨?_, ?_, ?_, ?_, ?_, ?_, ?_, ?_, ?_, ?_, ?_⟩
  · simp [initState, extRest, sumSizes_nil]
  · show extPend (ExtState.emit (ProcessFile f).1 ((ProcessFile f).2).head?)
        ++ [] ++ delivered DrvState.waitCount = (ProcessFile f).2
    rw [extPend_emit, head_toList_of_len_le_one _ (processFile_errs_len f)]
    simp [delivered]
  · intro h; simp [initState] at h
  · intro h; simp [initState] at h
  · intro h; simp [initState] at h
  · intro h; rcases h with h | h <;> simp [initState] at h
  · intro h; simp [initState] at h
  · intro h; simp [initState] at h
  · intro h; simp [initState, drvPastCount] at h
  · intro h; simp [initState, drvPastWriter] at h
  · intro h; simp [initState] at h

theorem pipeInv_step (f : FileModel) (t0 : Int) (silent : Bool)
    {s s₂ : PipeState} (hstep : Step silent s s₂) (hi : PipeInv f t0 s) :
    PipeInv f t0 s₂ := by
  obtain ⟨hcon, hled, hicl, hecl, hcd, hacl, hlcl, hwd, hdc, hdw, hrn⟩ := hi
  cases hstep with
  | extEmit i rest pend hext hroom =>
    refine ⟨?_, ?_, ?_, ?_, hcd, ?_, hlcl, hwd, hdc, hdw, hrn⟩
    · rw [hext] at hcon
      simp only [extRest, sumSizes_cons, sumSizes_append, sumSizes_nil]
        at hcon ⊢
      omega
    · rw [hext] at hled
      show extPend (ExtState.emit rest pend) ++ _ ++ _ = _
      rw [extPend_emit]
      rw [extPend_emit] at hled
      exact hled
    · intro h
      rcases hicl h with h2 | h2 <;> rw [hext] at h2 <;>
        exact ExtState.noConfusion h2
    · intro h
      have h2 := hecl h
      rw [hext] at h2
      exact ExtState.noConfusion h2
    · intro hd
      obtain ⟨hb, hcl2, hl2⟩ := hacl hd
      rcases hicl hcl2 with h2 | h2 <;> rw [hext] at h2 <;>
        exact ExtState.noConfusion h2
  | extSendErr e hext hroom =>
    have hled2 := hled
    rw [hext] at hled2
    rw [show extPend (ExtState.emit [] (some e)) = [e] from rfl] at hled2
    have hnil : s.errBuf = [] ∧ delivered s.drv = [] := by
      have hlen := processFile_errs_len f
      rw [← hled2] at hlen
      simp only [List.length_append, List.length_cons, List.length_nil]
        at hlen
      constructor
      · exact List.eq_nil_of_length_eq_zero (by omega)
      · exact List.eq_nil_of_length_eq_zero (by omega)
    refine ⟨?_, ?_, ?_, ?_, hcd, hacl, hlcl, hwd, hdc, hdw, ?_⟩
    · rw [hext] at hcon
      simp only [extRest] at hcon ⊢
      exact hcon
    · show extPend ExtState.closeItemsPhase ++ _ ++ _ = _
      rw [show extPend ExtState.closeItemsPhase = [] from rfl]
      rw [hnil.1, hnil.2] at hled2 ⊢
      simpa using hled2
    · intro h
      rcases hicl h with h2 | h2 <;> rw [hext] at h2 <;>
        exact ExtState.noConfusion h2
    · intro h
      have h2 := hecl h
      rw [hext] at h2
      exact ExtState.noConfusion h2
    · intro h
      have h2 := (hrn h).2
      have h3 := hecl h2
      rw [hext] at h3
      exact ExtState.noConfusion h3
  | extNoErr hext =>
    refine ⟨?_, ?_, ?_, ?_, hcd, hacl, hlcl, hwd, hdc, hdw, hrn⟩
    · rw [hext] at hcon
      simp only [extRest] at hcon ⊢
      exact hcon
    · rw [hext] at hled
      rw [show extPend (ExtState.emit [] none) = [] from rfl] at hled
      show extPend ExtState.closeItemsPhase ++ _ ++ _ = _
      rw [show extPend ExtState.closeItemsPhase = [] from rfl]
      exact hled
    · intro h
      rcases hicl h with h2 | h2 <;> rw [hext] at h2 <;>
        exact ExtState.noConfusion h2
    · intro h
      have h2 := hecl h
      rw [hext] at h2
      exact ExtState.noConfusion h2
  | extCloseItems hext =>
    refine ⟨?_, ?_, ?_, ?_, hcd, ?_, hlcl, hwd, hdc, hdw, hrn⟩
    · rw [hext] at hcon
      simp only [extRest] at hcon ⊢
      exact hcon
    · rw [hext] at hled
      exact hled
    · intro _
      exact Or.inl rfl
    · intro h
      have h2 := hecl h
      rw [hext] at h2
      exact ExtState.noConfusion h2
    · intro hd
      obtain ⟨hb, _, hl2⟩ := hacl hd
      exact ⟨hb, rfl, hl2⟩
  | extCloseErr hext =>
    refine ⟨?_, ?_, ?_, ?_, hcd, ?_, hlcl, hwd, hdc, hdw, ?_⟩
    · rw [hext] at hcon
      simp only [extRest] at hcon ⊢
      exact hcon
    · rw [hext] at hled
      exact hled
    · intro _
      exact Or.inr rfl
    · intro _
      rfl
    · intro hd
      exact hacl hd
    · intro h
      exact ⟨(hrn h).1, rfl⟩
  | aggRecvSilent i rest hsil hagg hbuf =>
    refine ⟨?_, hled, hicl, hecl, hcd, ?_, ?_, hwd, hdc, hdw, hrn⟩
    · rw [hbuf] at hcon
      simp only [sumSizes_cons] at hcon ⊢
      omega
    · intro hd
      obtain ⟨hb, _, _⟩ := hacl hd
      rw [hbuf] at hb
      exact absurd hb (List.cons_ne_nil i rest)
    · intro h
      rcases hlcl h with h2 | h2 <;> rw [hagg] at h2 <;>
        exact AggState.noConfusion h2
  | aggRecvEmit i rest hsil hagg hbuf =>
    refine ⟨?_, hled, hicl, hecl, ?_, ?_, ?_, hwd, hdc, hdw, hrn⟩
    · rw [hbuf] at hcon
      simp only [sumSizes_cons] at hcon ⊢
      omega
    · intro h
      have h2 := hcd h
      rw [hagg] at h2
      exact AggState.noConfusion h2
    · intro hd
      rcases hd with h2 | h2 <;> exact AggState.noConfusion h2
    · intro h
      rcases hlcl h with h2 | h2 <;> rw [hagg] at h2 <;>
        exact AggState.noConfusion h2
  | aggSend l hagg hroom =>
    refine ⟨hcon, hled, hicl, hecl, ?_, ?_, ?_, ?_, hdc, hdw, hrn⟩
    · intro h
      have h2 := hcd h
      rw [hagg] at h2
      exact AggState.noConfusion h2
    · intro hd
      rcases hd with h2 | h2 <;> exact AggState.noConfusion h2
    · intro h
      rcases hlcl h with h2 | h2 <;> rw [hagg] at h2 <;>
        exact AggState.noConfusion h2
    · intro h
      have h2 := (hwd h).2.2
      rcases hlcl h2 with h3 | h3 <;> rw [hagg] at h3 <;>
        exact AggState.noConfusion h3
  | aggCloseLines hagg hbuf hcl =>
    refine ⟨hcon, hled, hicl, hecl, ?_, ?_, ?_, ?_, hdc, hdw, hrn⟩
    · intro h
      have h2 := hcd h
      rw [hagg] at h2
      exact AggState.noConfusion h2
    · intro _
      exact ⟨hbuf, hcl, rfl⟩
    · intro _
      exact Or.inl rfl
    · intro h
      have h2 := (hwd h).2.2
      rcases hlcl h2 with h3 | h3 <;> rw [hagg] at h3 <;>
        exact AggState.noConfusion h3
  | aggCancel hagg =>
    refine ⟨hcon, hled, hicl, hecl, ?_, ?_, ?_, hwd, ?_, hdw, hrn⟩
    · intro _
      rfl
    · intro _
      exact hacl (Or.inl hagg)
    · intro _
      exact Or.inr rfl
    · intro _
      rfl
  | wrRecv l rest hwr hbuf =>
    refine ⟨hcon, hled, hicl, hecl, hcd, hacl, hlcl, ?_, hdc, hdw, hrn⟩
    · intro h
      have h2 := (hwd h).2.1
      rw [hbuf] at h2
      exact absurd h2 (List.cons_ne_nil l rest)
  | wrClose hwr hbuf hcl =>
    refine ⟨hcon, hled, hicl, hecl, hcd, hacl, hlcl, ?_, hdc, ?_, hrn⟩
    · intro _
      exact ⟨rfl, hbuf, hcl⟩
    · intro _
      rfl
  | drvCount hdrv hc =>
    refine ⟨hcon, ?_, hicl, hecl, hcd, hacl, hlcl, hwd, ?_, ?_, ?_⟩
    · rw [hdrv] at hled
      exact hled
    · intro _
      exact hc
    · intro h
      exact h.elim
    · intro h
      exact DrvState.noConfusion h
  | drvWriter hdrv hw =>
    refine ⟨hcon, ?_, hicl, hecl, hcd, hacl, hlcl, hwd, ?_, ?_, ?_⟩
    · rw [hdrv] at hled
      exact hled
    · intro _
      rw [hdrv] at hdc
      exact hdc trivial
    · intro _
      exact hw
    · intro h
      exact DrvState.noConfusion h
  | drvRecvErr e rest hdrv hbuf =>
    have hled2 := hled
    rw [hdrv, hbuf] at hled2
    rw [show delivered DrvState.readResult = [] from rfl] at hled2
    have hnil : extPend s.ext = [] ∧ rest = [] := by
      have hlen := processFile_errs_len f
      rw [← hled2] at hlen
      simp only [List.length_append, List.length_cons, List.length_nil]
        at hlen
      constructor
      · exact List.eq_nil_of_length_eq_zero (by omega)
      · exact List.eq_nil_of_length_eq_zero (by omega)
    refine ⟨hcon, ?_, hicl, hecl, hcd, hacl, hlcl, hwd, ?_, ?_, ?_⟩
    · show extPend s.ext ++ rest ++ delivered (DrvState.returned (some e)) = _
      rw [show delivered (DrvState.returned (some e)) = [e] from rfl]
      rw [hnil.1, hnil.2] at hled2 ⊢
      simpa using hled2
    · intro _
      rw [hdrv] at hdc
      exact hdc trivial
    · intro _
      rw [hdrv] at hdw
      exact hdw trivial
    · intro h
      simp at h
  | drvRecvClosed hdrv hbuf hcl =>
    refine ⟨hcon, ?_, hicl, hecl, hcd, hacl, hlcl, hwd, ?_, ?_, ?_⟩
    · rw [hdrv] at hled
      exact hled
    · intro _
      rw [hdrv] at hdc
      exact hdc trivial
    · intro _
      rw [hdrv] at hdw
      exact hdw trivial
    · intro _
      exact ⟨hbuf, hcl⟩

/-- The invariant holds in every reachable state of a run. -/
theorem pipeInv_reachable (f : FileModel) (t0 : Int) (silent : Bool)
    (s : PipeState) (h : Reaches silent (initState f t0) s) :
    PipeInv f t0 s := by
  induction h with
  | refl => exact pipeInv_init f t0
  | tail _ hstep ih => exact pipeInv_step f t0 silent hstep ih

/-- An archive model reports no error exactly when it is a tar stream
that reaches its natural end. -/
theorem processFile_success_iff (f : FileModel) :
    (ProcessFile f).2 = [] ↔
      ∃ headers, f = FileModel.tarEntries headers false := by
  cases f with
  | openFail => simp [ProcessFile]
  | gzipFail => simp [ProcessFile]
  | tarEntries headers parseFail =>
    cases parseFail with
    | false => simp [ProcessFile, tarNewReader]
    | true => simp [ProcessFile, tarNewReader]

/-- C7. In every execution of the pipeline, when the driver has read the
extractor's terminal result, both the aggregator completion and the
writer completion have been signalled, the running total holds the full
fold of every emitted entry, and the result read is exactly the
extractor's reported outcome — so the total is fully folded before the
caller learns whether the archive errored. -/
theorem driver_blocks_until_folded (f : FileModel) (t0 : Int)
    (silent : Bool) (s : PipeState) (r : Option TError)
    (hreach : Reaches silent (initState f t0) s)
    (hret : s.drv = DrvState.returned r) :
    s.countDone = true ∧ s.writerDone = true ∧
    s.dest = t0 + sumSizes (ProcessFile f).1 ∧
    r = ((ProcessFile f).2).head? := by
  have hi := pipeInv_reachable f t0 silent s hreach
  have hcount : s.countDone = true := hi.drvC (by rw [hret]; trivial)
  have hwrite : s.writerDone = true := hi.drvW (by rw [hret]; trivial)
  have hagg := hi.countD hcount
  obtain ⟨hbuf, hicl, _⟩ := hi.aggCl (Or.inr hagg)
  have hext := hi.itemsCl hicl
  have hrest : extRest s.ext = [] := by
    rcases hext with h | h <;> rw [h] <;> rfl
  have hpend : extPend s.ext = [] := by
    rcases hext with h | h <;> rw [h] <;> rfl
  have hdest : s.dest = t0 + sumSizes (ProcessFile f).1 := by
    have hc := hi.conserve
    rw [hrest, hbuf] at hc
    simp only [sumSizes_nil] at hc
    omega
  refine ⟨hcount, hwrite, hdest, ?_⟩
  have hled := hi.ledger
  rw [hret, hpend] at hled
  cases r with
  | none =>
    have hnil := (hi.retNone hret).1
    rw [hnil] at hled
    rw [show delivered (DrvState.returned none) = [] from rfl] at hled
    simp only [List.nil_append, List.append_nil] at hled
    rw [← hled]
    rfl
  | some e =>
    rw [show delivered (DrvState.returned (some e)) = [e] from rfl] at hled
    simp only [List.nil_append] at hled
    have hlen := processFile_errs_len f
    rw [← hled] at hlen
    simp only [List.length_append, List.length_cons, List.length_nil]
      at hlen
    have hnil : s.errBuf = [] := List.eq_nil_of_length_eq_zero (by omega)
    rw [hnil] at hled
    simp only [List.nil_append] at hled
    rw [← hled]
    rfl

/-- C5. In every execution: at most one terminal error exists across the
single-slot result channel and the driver (so at most one send ever
happened); once the channel is closed the extractor has no error send
left; and if the driver receives `nil` from the closed channel, the
archive was one that `ProcessFile` processed to its natural end. -/
theorem extractor_single_error (f : FileModel) (t0 : Int) (silent : Bool)
    (s : PipeState) (hreach : Reaches silent (initState f t0) s) :
    s.errBuf.length + (delivered s.drv).length ≤ 1 ∧
    (s.errClosed = true → extPend s.ext = []) ∧
    (s.drv = DrvState.returned none → (ProcessFile f).2 = []) ∧
    ((ProcessFile f).2 = [] ↔
      ∃ headers, f = FileModel.tarEntries headers false) := by
  have hi := pipeInv_reachable f t0 silent s hreach
  refine ⟨?_, ?_, ?_, processFile_success_iff f⟩
  · have hlen := processFile_errs_len f
    rw [← hi.ledger] at hlen
    simp only [List.length_append] at hlen
    omega
  · intro h
    rw [hi.errCl h]
    rfl
  · intro h
    obtain ⟨hb, hcl⟩ := hi.retNone h
    have hext := hi.errCl hcl
    have hled := hi.ledger
    rw [hext, hb, h] at hled
    rw [show extPend ExtState.extDone = [] from rfl] at hled
    rw [show delivered (DrvState.returned none) = [] from rfl] at hled
    simpa using hled.symm

/-- Archive with one regular 5-byte entry, for the C7 witness run. -/
def pipeDemoFile : FileModel :=
  FileModel.tarEntries
    [{ name := "w", size := 5, typeflag := TypeFlag.reg }] false

/-- The single progress record of the C7 witness run. -/
def pipeDemoLine : StatusLine := { Path := "w", Total := 5 }

/-- Terminal state of the C7 witness run. -/
def pipeDemoFinal : PipeState where
  ext := ExtState.extDone
  itemsBuf := []
  itemsClosed := true
  errBuf := []
  errClosed := true
  agg := AggState.aggDone
  dest := 5
  linesBuf := []
  linesClosed := true
  countDone := true
  wr := WrState.wrDone
  writerDone := true
  drv := DrvState.returned none
  written := [pipeDemoLine]

/-- A complete schedule of the pipeline on `pipeDemoFile`. -/
theorem pipeDemoReaches :
    Reaches false (initState pipeDemoFile 0) pipeDemoFinal := by
  refine Relation.ReflTransGen.head
    (Step.extEmit _ { Path := "w", Size := 5 } [] none (by decide)
      (by decide)) ?_
  refine Relation.ReflTransGen.head (Step.extNoErr _ (by decide)) ?_
  refine Relation.ReflTransGen.head (Step.extCloseItems _ (by decide)) ?_
  refine Relation.ReflTransGen.head (Step.extCloseErr _ (by decide)) ?_
  refine Relation.ReflTransGen.head
    (Step.aggRecvEmit _ { Path := "w", Size := 5 } [] rfl (by decide)
      (by decide)) ?_
  refine Relation.ReflTransGen.head
    (Step.aggSend _ { Path := "w", Total := 5 } (by decide) (by decide)) ?_
  refine Relation.ReflTransGen.head
    (Step.aggCloseLines _ (by decide) (by decide) (by decide)) ?_
  refine Relation.ReflTransGen.head (Step.aggCancel _ (by decide)) ?_
  refine Relation.ReflTransGen.head
    (Step.wrRecv _ { Path := "w", Total := 5 } [] (by decide) (by decide)) ?_
  refine Relation.ReflTransGen.head
    (Step.wrClose _ (by decide) (by decide) (by decide)) ?_
  refine Relation.ReflTransGen.head
    (Step.drvCount _ (by decide) (by decide)) ?_
  refine Relation.ReflTransGen.head
    (Step.drvWriter _ (by decide) (by decide)) ?_
  refine Relation.ReflTransGen.head
    (Step.drvRecvClosed _ (by decide) (by decide) (by decide)) ?_
  exact Relation.ReflTransGen.refl

/-- Witness for C7 on the concrete run. -/
theorem driver_blocks_until_folded_witness :
    pipeDemoFinal.countDone = true ∧ pipeDemoFinal.writerDone = true ∧
    pipeDemoFinal.dest = 0 + sumSizes (ProcessFile pipeDemoFile).1 ∧
    (none : Option TError) = ((ProcessFile pipeDemoFile).2).head? :=
  driver_blocks_until_folded pipeDemoFile 0 false pipeDemoFinal none
    pipeDemoReaches (by decide)

/-- Terminal state of the C5 witness run on a file whose open fails. -/
def errDemoFinal : PipeState where
  ext := ExtState.extDone
  itemsBuf := []
  itemsClosed := true
  errBuf := []
  errClosed := true
  agg := AggState.aggDone
  dest := 0
  linesBuf := []
  linesClosed := true
  countDone := true
  wr := WrState.wrDone
  writerDone := true
  drv := DrvState.returned (some TError.openError)
  written := []

/-- A complete schedule of the pipeline on an unopenable file, with
progress suppressed. -/
theorem errDemoReaches :
    Reaches true (initState FileModel.openFail 0) errDemoFinal := by
  refine Relation.ReflTransGen.head
    (Step.extSendErr _ TError.openError (by decide) (by decide)) ?_
  refine Relation.ReflTransGen.head (Step.extCloseItems _ (by decide)) ?_
  refine Relation.ReflTransGen.head (Step.extCloseErr _ (by decide)) ?_
  refine Relation.ReflTransGen.head
    (Step.aggCloseLines _ (by decide) (by decide) (by decide)) ?_
  refine Relation.ReflTransGen.head (Step.aggCancel _ (by decide)) ?_
  refine Relation.ReflTransGen.head
    (Step.wrClose _ (by decide) (by decide) (by decide)) ?_
  refine Relation.ReflTransGen.head
    (Step.drvCount _ (by decide) (by decide)) ?_
  refine Relation.ReflTransGen.head
    (Step.drvWriter _ (by decide) (by decide)) ?_
  refine Relation.ReflTransGen.head
    (Step.drvRecvErr _ TError.openError [] (by decide) (by decide)) ?_
  exact Relation.ReflTransGen.refl

/-- Witness for C5 on the concrete run. -/
theorem extractor_single_error_witness :
    errDemoFinal.errBuf.length + (delivered errDemoFinal.drv).length ≤ 1 ∧
    (errDemoFinal.errClosed = true → extPend errDemoFinal.ext = []) ∧
    (errDemoFinal.drv = DrvState.returned none →
      (ProcessFile FileModel.openFail).2 = []) ∧
    ((ProcessFile FileModel.openFail).2 = [] ↔
      ∃ headers, FileModel.openFail = FileModel.tarEntries headers false) :=
  extractor_single_error FileModel.openFail 0 true errDemoFinal
    errDemoReaches
